import Mathlib

/-!
Verification of `genericsync.py` (postgresql2AGO): a shallow embedding of the
pandas-based reconciliation pipeline in class `DataSync`, together with proofs
about its normalization (`prepare_data`), diffing (`sync_data`'s merge/cleanup)
and chunked delivery (`add_to_ago`) steps.

Scalar cell values are modelled by `Value`; a pandas `DataFrame` by `DF`
(a column-name list plus positional rows).  External collaborators (ArcGIS,
SQLAlchemy, shapely's WKB encoder) are modelled abstractly: the WKB hex dump of
a point is an injective textual encoding, and the destination write response is
an arbitrary function of the submitted chunk.
-/

namespace GenericSync

/-- A pandas cell value: missing (NaN/None), a string, a number, or an ArcGIS
geometry dict `{'x': …, 'y': …}` whose entries may be absent. -/
inductive Value where
  | null : Value
  | str  : String → Value
  | num  : Int → Value
  | geom : Option Int → Option Int → Value
deriving DecidableEq, Repr

/-- Python's `str()` rendering of a cell, as produced by `astype(str)` /
`str(x)`.  A missing value renders as `"nan"` (the float-NaN rendering used by
pandas for object columns); a geometry dict's rendering is irrelevant to every
claim, so it is a fixed token. -/
def pyStr : Value → String
  | Value.null => "nan"
  | Value.str s => s
  | Value.num n => toString n
  | Value.geom _ _ => "geomdict"

/-- A pandas DataFrame: ordered column names plus positional rows. -/
structure DF where
  cols : List String
  rows : List (List Value)
deriving DecidableEq, Repr

/-- Value of column `k` in row `r` (columns and values walked in lockstep,
first match wins), i.e. label-based cell access `row[k]`. -/
def lookupVal : List String → List Value → String → Value
  | [], _, _ => Value.null
  | _, [], _ => Value.null
  | c :: cs, v :: vs, k => if c = k then v else lookupVal cs vs k

/-- Boolean prefix test on character lists. -/
def startsWithL : List Char → List Char → Bool
  | [], _ => true
  | _ :: _, [] => false
  | a :: as, b :: bs => a == b && startsWithL as bs

/-- Boolean substring test on character lists: Python's `needle in hay`. -/
def hasSubL (n : List Char) : List Char → Bool
  | [] => n.isEmpty
  | b :: bs => startsWithL n (b :: bs) || hasSubL n bs

/-- Python's `needle in hay` on strings. -/
def hasSubS (n s : String) : Bool := hasSubL n.data s.data

/-- Column-name test of line 45: `'date' in col or 'time' in col`
(case-sensitive substring containment, exactly as in the source). -/
def dateTimeCol (c : String) : Bool := hasSubS "date" c || hasSubS "time" c

/-- Column-name test of line 52: `'note' in col` (case-sensitive). -/
def noteCol (c : String) : Bool := hasSubS "note" c

/-- Drop everything up to and including the first `'>'`; `none` when the list
holds no `'>'`.  This is the tail of a `<[^>]*>` regex match. -/
def dropTag : List Char → Option (List Char)
  | [] => none
  | c :: rest => if c = '>' then some rest else dropTag rest

/-- Fuelled worker for `re.sub(r'<[^>]*>', '', s)`: scan left to right; at a
`'<'` that has a later `'>'`, drop through that first `'>'` (one regex match),
otherwise keep the character.  Fuel `≥ length` makes the fuel case dead. -/
def stripGo : Nat → List Char → List Char
  | _, [] => []
  | 0, l => l
  | fuel + 1, c :: rest =>
    if c = '<' then
      match dropTag rest with
      | some rest2 => stripGo fuel rest2
      | none => c :: stripGo fuel rest
    else c :: stripGo fuel rest

/-- Model of `re.sub(r'<[^>]*>', '', s)` on a character list. -/
def stripTags (l : List Char) : List Char := stripGo l.length l

/-- Model of `re.sub(r'<[^>]*>', '', s)` on a string. -/
def stripTagsS (s : String) : String := String.mk (stripTags s.data)

/-- The `fillna('')` action on one cell: missing becomes the empty string. -/
def fillV : Value → Value
  | Value.null => Value.str ""
  | v => v

/-- The `astype(str)` action on one cell. -/
def strV (v : Value) : Value := Value.str (pyStr v)

/-- The note-column action of line 53: `re.sub(r'<[^>]*>', '', str(x))`. -/
def stripV (v : Value) : Value := Value.str (stripTagsS (pyStr v))

/-- Apply `f` to every cell of every column whose name satisfies `p`
(cells are paired with their column name positionally). -/
def applyCol (p : String → Bool) (f : Value → Value) (df : DF) : DF :=
  ⟨df.cols, df.rows.map (fun r =>
    (df.cols.zip r).map (fun cv => if p cv.1 then f cv.2 else cv.2))⟩

/-- Lines 44–53 of `prepare_data`: stringify date/time-named columns, then
`fillna('')`, then strip markup in note-named columns. -/
def prepSteps (df : DF) : DF :=
  applyCol noteCol stripV (applyCol (fun _ => true) fillV (applyCol dateTimeCol strV df))

/-- Shapely's `wkb.dumps(Point(x, y), hex=True)`, modelled as an abstract
injective hex-like rendering of the two coordinates. -/
def wkbHex (x y : Int) : String := "0101000000" ++ toString x ++ "_" ++ toString y

/-- `DataSync.convert_geometry` (lines 60–62): `Point(geometry['x'],
geometry['y'])` then a WKB hex dump.  Subscripting a non-dict value (`None`,
NaN, a string, a number) raises `TypeError`; a dict without `'x'` or `'y'`
raises `KeyError`. -/
def convert_geometry : Value → Except String Value
  | Value.geom (some x) (some y) => Except.ok (Value.str (wkbHex x y))
  | Value.geom _ _ => Except.error "KeyError"
  | _ => Except.error "TypeError"

/-- Error-propagating map: apply `f` left to right, stopping at the first
raised error — the propagation behaviour of a Python exception inside a
pandas `apply`. -/
def mapME (f : α → Except String β) : List α → Except String (List β)
  | [] => Except.ok []
  | a :: t =>
    match f a with
    | Except.error e => Except.error e
    | Except.ok b =>
      match mapME f t with
      | Except.error e => Except.error e
      | Except.ok bs => Except.ok (b :: bs)

/-- One row of the spatial step of `prepare_data` (line 56):
`data['geometry'].apply(self.convert_geometry)` over the row's cells. -/
def convRow (cols : List String) (r : List Value) : Except String (List Value) :=
  mapME (fun cv => if cv.1 = "geometry" then convert_geometry cv.2 else Except.ok cv.2)
    (cols.zip r)

/-- `DataSync.prepare_data` (lines 43–58): the pure normalization steps,
followed — when `spatial` and a `geometry` column is present — by geometry
conversion, which can raise. -/
def prepare_data (df : DF) (spatial : Bool) : Except String DF :=
  let d := prepSteps df
  if spatial ∧ "geometry" ∈ d.cols then
    match mapME (convRow d.cols) d.rows with
    | Except.error e => Except.error e
    | Except.ok rows2 => Except.ok ⟨d.cols, rows2⟩
  else Except.ok d

/-- Python's `name.replace('_x', '')` specialised to its use on line 73:
remove every (left-to-right, non-overlapping) occurrence of `"_x"`. -/
def replaceXL : List Char → List Char
  | [] => []
  | [a] => [a]
  | a :: b :: rest => if a = '_' ∧ b = 'x' then replaceXL rest else a :: replaceXL (b :: rest)

/-- String-level `.str.replace('_x', '')`. -/
def replX (c : String) : String := String.mk (replaceXL c.data)

/-- The `'_x'` suffix pandas appends to an overlapping left-frame column. -/
def addX (c : String) : String := String.mk (c.data ++ ['_', 'x'])

/-- The `'_y'` suffix pandas appends to an overlapping right-frame column. -/
def addY (c : String) : String := String.mk (c.data ++ ['_', 'y'])

/-- Non-key columns of the right frame, in order. -/
def nonKeyCols (cols keys : List String) : List String :=
  cols.filter (fun c => decide (c ∉ keys))

/-- Column list of `pd.merge(db, ago, how='outer', on=keys, indicator=True)`:
the left frame's columns in order (an overlapping non-key name gets `'_x'`),
then the right frame's non-key columns (overlaps get `'_y'`), then the
indicator column `'_merge'`. -/
def mergedCols (dbCols agoCols keys : List String) : List String :=
  dbCols.map (fun c => if c ∈ keys then c else if c ∈ agoCols then addX c else c)
  ++ (nonKeyCols agoCols keys).map (fun c => if c ∈ dbCols then addY c else c)
  ++ ["_merge"]

/-- Key tuple of a row: the values of the key columns, in key order. -/
def keyTuple (keys cols : List String) (r : List Value) : List Value :=
  keys.map (lookupVal cols r)

/-- A joined row for a key matched on both sides (`_merge == 'both'`). -/
def bothRow (db ago : DF) (keys : List String) (rL rR : List Value) : List Value :=
  db.cols.map (lookupVal db.cols rL)
  ++ (nonKeyCols ago.cols keys).map (lookupVal ago.cols rR)
  ++ [Value.str "both"]

/-- A joined row for a key present only in the left (db) frame
(`_merge == 'left_only'`): the right frame's columns are all missing. -/
def leftOnlyRow (db ago : DF) (keys : List String) (rL : List Value) : List Value :=
  db.cols.map (lookupVal db.cols rL)
  ++ (nonKeyCols ago.cols keys).map (fun _ => Value.null)
  ++ [Value.str "left_only"]

/-- A joined row for a key present only in the right (ago) frame
(`_merge == 'right_only'`): the left frame's non-key columns are all missing,
its key columns carry the right row's key. -/
def rightOnlyRow (db ago : DF) (keys : List String) (rR : List Value) : List Value :=
  db.cols.map (fun c => if c ∈ keys then lookupVal ago.cols rR c else Value.null)
  ++ (nonKeyCols ago.cols keys).map (lookupVal ago.cols rR)
  ++ [Value.str "right_only"]

/-- Rows of the full outer join: each left row expanded by its key matches
(or kept alone as `left_only`), then the unmatched right rows. -/
def mergeRows (db ago : DF) (keys : List String) : List (List Value) :=
  (db.rows.flatMap (fun rL =>
    let ms := ago.rows.filter
      (fun rR => decide (keyTuple keys ago.cols rR = keyTuple keys db.cols rL))
    if ms.isEmpty then [leftOnlyRow db ago keys rL]
    else ms.map (fun rR => bothRow db ago keys rL rR)))
  ++ (ago.rows.filter (fun rR =>
        db.rows.all (fun rL =>
          decide (keyTuple keys ago.cols rR ≠ keyTuple keys db.cols rL)))).map
      (rightOnlyRow db ago keys)

/-- Line 68: `pd.merge(db_data, ago_data, how='outer', on=key_columns,
indicator=True)`.  pandas raises `KeyError` when a key column is absent from
either frame, rejects an empty key list, and refuses the indicator when a
column is already named `'_merge'`. -/
def mergeOuter (db ago : DF) (keys : List String) : Except String DF :=
  if keys ≠ [] ∧ (∀ k ∈ keys, k ∈ db.cols) ∧ (∀ k ∈ keys, k ∈ ago.cols)
      ∧ "_merge" ∉ db.cols ∧ "_merge" ∉ ago.cols then
    Except.ok ⟨mergedCols db.cols ago.cols keys, mergeRows db ago keys⟩
  else Except.error "KeyError"

/-- Line 69's selection: `merged[merged['_merge'] == 'left_only']`. -/
def selRows (m : DF) : List (List Value) :=
  m.rows.filter (fun r => decide (lookupVal m.cols r "_merge" = Value.str "left_only"))

/-- Keep the cells of the columns satisfying `keep`, in order. -/
def selCols (keep : String → Bool) (cols : List String) (r : List Value) : List Value :=
  ((cols.zip r).filter (fun cv => keep cv.1)).map (fun cv => cv.2)

/-- Drop the columns whose name fails `keep` (models `.drop(..., axis=1)` and
column-subset selection). -/
def dropColsDF (keep : String → Bool) (df : DF) : DF :=
  ⟨df.cols.filter keep, df.rows.map (selCols keep df.cols)⟩

/-- Line 73: rename every column by deleting its `'_x'` occurrences. -/
def renameXDF (df : DF) : DF := ⟨df.cols.map replX, df.rows⟩

/-- Line 75: `records_to_add[db_data.columns]` — label-based projection onto
`targets`; pandas raises `KeyError` when a requested column is absent. -/
def projectCols (df : DF) (targets : List String) : Except String DF :=
  if ∀ t ∈ targets, t ∈ df.cols then
    Except.ok ⟨targets, df.rows.map (fun r => targets.map (lookupVal df.cols r))⟩
  else Except.error "KeyError"

/-- Lines 68–75 of `DataSync.sync_data`, as a function of the two fetched
frames: outer-join on the keys, keep the `left_only` rows, drop the indicator,
drop every column whose name contains `'_y'`, delete `'_x'` from the remaining
names, and project onto the db frame's columns.  Note that the fetched frames
are joined directly — `prepare_data` is never invoked on this path. -/
def sync_records_to_add (db ago : DF) (keys : List String) : Except String DF := do
  let merged ← mergeOuter db ago keys
  let sel : DF := ⟨merged.cols, selRows merged⟩
  let d1 := dropColsDF (fun c => !(c == "_merge")) sel
  let d2 := dropColsDF (fun c => !(hasSubS "_y" c)) d1
  let d3 := renameXDF d2
  projectCols d3 db.cols

/-- Line 86: one feature's attribute dict,
`row.drop(['geometry'], errors='ignore').to_dict()`. -/
def featRow (cols : List String) (r : List Value) : List (String × Value) :=
  (cols.zip r).filter (fun cv => !(cv.1 == "geometry"))

/-- Line 86: `features_to_add`, one attribute dict per row of the frame. -/
def features_to_add (df : DF) : List (List (String × Value)) :=
  df.rows.map (featRow df.cols)

/-- Fuelled worker for the chunking loop of lines 91–92
(`for i in range(0, len(xs), 100): xs[i:i+100]`); fuel `≥ length` makes the
fuel case dead. -/
def chunksGo (fuel : Nat) (l : List α) : List (List α) :=
  match fuel, l with
  | _, [] => []
  | 0, l => [l]
  | fuel + 1, l => l.take 100 :: chunksGo fuel (l.drop 100)

/-- The chunk partition used by `add_to_ago` (`chunk_size = 100`, line 89). -/
def chunks100 (l : List α) : List (List α) := chunksGo l.length l

/-- Lines 88–96 of `add_to_ago`: the `results` list, one destination response
per submitted chunk, where `f` models `layer.edit_features(adds=chunk)`.  The
loop never inspects a response, so every chunk is attempted regardless of
earlier reported failures. -/
def add_results (df : DF) (f : List (List (String × Value)) → α) : List α :=
  (chunks100 (features_to_add df)).map f

/-- Line 104: `return result` — the value of the loop variable after the last
iteration, i.e. only the final chunk's response; a `NameError` when no chunk
was submitted. -/
def add_return (df : DF) (f : List (List (String × Value)) → α) : Except String α :=
  match (add_results df f).getLast? with
  | some r => Except.ok r
  | none => Except.error "NameError"

/-- The composite per-cell effect of `prepSteps` on a cell of column `c`:
date/time stringification, then null filling, then note-column stripping. -/
def stepFn (c : String) (v : Value) : Value :=
  if noteCol c then stripV (fillV (if dateTimeCol c then strV v else v))
  else fillV (if dateTimeCol c then strV v else v)

/-- No `'<'` in the list is followed (anywhere later) by a `'>'`: exactly the
strings on which `re.sub(r'<[^>]*>', '', ·)` finds no match. -/
def noTagStart : List Char → Prop
  | [] => True
  | c :: rest => (c = '<' → '>' ∉ rest) ∧ noTagStart rest

/-- The delivery-selection rule as claim C2 words it (left-hand/destination
values entirely absent): rows of the joined frame whose left-frame non-key
columns are all missing.  Stated from the claim's words, to be compared with
the source's selection `selRows`. -/
def claimLeftAbsentSel (dbCols keys : List String) (m : DF) : List (List Value) :=
  m.rows.filter (fun r =>
    (nonKeyCols dbCols keys).all (fun c => decide (lookupVal m.cols r c = Value.null)))

/-- Concrete db frame for C1: one record, key `1`, with a missing note. -/
def dbC1 : DF := ⟨["id", "notes"], [[Value.num 1, Value.null]]⟩

/-- Concrete ago frame for C1: empty. -/
def agoC1 : DF := ⟨["id", "b"], []⟩

/-- Concrete db frame for C2: one record with key `1`. -/
def dbC2 : DF := ⟨["id", "a"], [[Value.num 1, Value.num 5]]⟩

/-- Concrete ago frame for C2: one record with key `2`. -/
def agoC2 : DF := ⟨["id", "c"], [[Value.num 2, Value.num 7]]⟩

/-- The outer join of `dbC2` and `agoC2` on `id`: one `left_only` row and one
`right_only` row. -/
def mC2 : DF :=
  ⟨["id", "a", "c", "_merge"],
   [[Value.num 1, Value.num 5, Value.null, Value.str "left_only"],
    [Value.num 2, Value.null, Value.num 7, Value.str "right_only"]]⟩

/-- Concrete db frame for C8: two records sharing the key tuple `[1]`. -/
def dbC8 : DF := ⟨["id", "a"], [[Value.num 1, Value.num 10], [Value.num 1, Value.num 20]]⟩

/-- Concrete ago frame for C8: two records sharing the key tuple `[1]`. -/
def agoC8 : DF := ⟨["id", "b"], [[Value.num 1, Value.num 30], [Value.num 1, Value.num 40]]⟩

/-- 101 one-column records whose last record differs from the first hundred. -/
def dfA : DF := ⟨["a"], List.replicate 100 [Value.num 0] ++ [[Value.num 7]]⟩

/-- 101 one-column records agreeing with `dfA` only on the last record. -/
def dfB : DF := ⟨["a"], List.replicate 100 [Value.num 1] ++ [[Value.num 7]]⟩

/-- A destination write response that records the submitted chunk itself. -/
def idf : List (List (String × Value)) → List (List (String × Value)) := fun ch => ch

theorem dropTag_length {l l2 : List Char} (h : dropTag l = some l2) :
    l2.length < l.length := by
  induction l with
  | nil => simp [dropTag] at h
  | cons c rest ih =>
    by_cases hc : c = '>'
    · simp [dropTag, hc] at h
      simp [← h]
    · simp [dropTag, hc] at h
      exact Nat.lt_trans (ih h) (by simp)

theorem dropTag_none_iff {l : List Char} : dropTag l = none ↔ '>' ∉ l := by
  induction l with
  | nil => simp [dropTag]
  | cons c rest ih =>
    by_cases hc : c = '>'
    · subst hc
      simp [dropTag]
    · have hc2 : ¬('>' = c) := fun h => hc h.symm
      simp [dropTag, hc, hc2, ih]

theorem dropTag_sub {l l2 : List Char} (h : dropTag l = some l2) :
    ∀ x ∈ l2, x ∈ l := by
  induction l with
  | nil => simp [dropTag] at h
  | cons c rest ih =>
    by_cases hc : c = '>'
    · simp [dropTag, hc] at h
      subst h
      exact fun x hx => List.mem_cons_of_mem _ hx
    · simp [dropTag, hc] at h
      exact fun x hx => List.mem_cons_of_mem _ (ih h x hx)

theorem stripGo_fuel {f1 : Nat} : ∀ {f2 : Nat} {l : List Char},
    l.length ≤ f1 → l.length ≤ f2 → stripGo f1 l = stripGo f2 l := by
  induction f1 with
  | zero =>
    intro f2 l h1 _
    have : l = [] := List.eq_nil_of_length_eq_zero (Nat.le_zero.mp h1)
    subst this
    cases f2 <;> simp [stripGo]
  | succ f ih =>
    intro f2 l h1 h2
    cases l with
    | nil => cases f2 <;> simp [stripGo]
    | cons c rest =>
      cases f2 with
      | zero => simp at h2
      | succ g =>
        have hrest : rest.length ≤ f := by simp at h1; omega
        have hrest2 : rest.length ≤ g := by simp at h2; omega
        simp only [stripGo]
        by_cases hc : c = '<'
        · simp only [hc, if_pos rfl]
          cases hdt : dropTag rest with
          | some rest2 =>
            have hlen := dropTag_length hdt
            exact ih (Nat.le_of_lt (Nat.lt_of_lt_of_le hlen hrest))
              (Nat.le_of_lt (Nat.lt_of_lt_of_le hlen hrest2))
          | none => rw [ih hrest hrest2]
        · simp only [if_neg hc]
          rw [ih hrest hrest2]

theorem stripTags_cons (c : Char) (rest : List Char) :
    stripTags (c :: rest) =
      if c = '<' then
        match dropTag rest with
        | some rest2 => stripTags rest2
        | none => c :: stripTags rest
      else c :: stripTags rest := by
  have hbase : stripTags (c :: rest) =
      if c = '<' then
        match dropTag rest with
        | some rest2 => stripGo rest.length rest2
        | none => c :: stripGo rest.length rest
      else c :: stripGo rest.length rest := rfl
  rw [hbase]
  by_cases hc : c = '<'
  · rw [if_pos hc, if_pos hc]
    cases hdt : dropTag rest with
    | some rest2 =>
      show stripGo rest.length rest2 = stripTags rest2
      exact stripGo_fuel (Nat.le_of_lt (dropTag_length hdt)) (Nat.le_refl _)
    | none => rfl
  · rw [if_neg hc, if_neg hc]
    rfl

theorem mem_stripGo {f : Nat} : ∀ {l : List Char} {x : Char},
    x ∈ stripGo f l → x ∈ l := by
  induction f with
  | zero => intro l x h; cases l <;> simpa [stripGo] using h
  | succ f ih =>
    intro l x h
    cases l with
    | nil => simpa [stripGo] using h
    | cons c rest =>
      simp only [stripGo] at h
      by_cases hc : c = '<'
      · simp only [hc, if_pos rfl] at h
        cases hdt : dropTag rest with
        | some rest2 =>
          rw [hdt] at h
          exact List.mem_cons_of_mem _ (dropTag_sub hdt x (ih h))
        | none =>
          rw [hdt] at h
          rcases List.mem_cons.mp h with h | h
          · simp [h, hc]
          · exact List.mem_cons_of_mem _ (ih h)
      · simp only [if_neg hc] at h
        rcases List.mem_cons.mp h with h | h
        · simp [h]
        · exact List.mem_cons_of_mem _ (ih h)

theorem stripGo_good {f : Nat} : ∀ {l : List Char},
    l.length ≤ f → noTagStart (stripGo f l) := by
  induction f with
  | zero =>
    intro l h
    have : l = [] := List.eq_nil_of_length_eq_zero (Nat.le_zero.mp h)
    subst this
    simp [stripGo, noTagStart]
  | succ f ih =>
    intro l h
    cases l with
    | nil => simp [stripGo, noTagStart]
    | cons c rest =>
      have hrest : rest.length ≤ f := by simp at h; omega
      simp only [stripGo]
      by_cases hc : c = '<'
      · simp only [hc, if_pos rfl]
        cases hdt : dropTag rest with
        | some rest2 =>
          exact ih (Nat.le_trans (Nat.le_of_lt (dropTag_length hdt)) hrest)
        | none =>
          refine ⟨fun _ hmem => ?_, ih hrest⟩
          exact (dropTag_none_iff.mp hdt) (mem_stripGo hmem)
      · simp only [if_neg hc]
        exact ⟨fun h' => absurd h' hc, ih hrest⟩

theorem stripGo_fix {f : Nat} : ∀ {l : List Char},
    noTagStart l → stripGo f l = l := by
  induction f with
  | zero => intro l _; cases l <;> simp [stripGo]
  | succ f ih =>
    intro l hl
    cases l with
    | nil => simp [stripGo]
    | cons c rest =>
      have h2 := ih hl.2
      simp only [stripGo]
      by_cases hc : c = '<'
      · have hnone : dropTag rest = none := dropTag_none_iff.mpr (hl.1 hc)
        rw [hnone]
        simp [hc, h2]
      · simp [hc, h2]

theorem noTagStart_stripTags (l : List Char) : noTagStart (stripTags l) :=
  stripGo_good (Nat.le_refl _)

theorem stripTags_idem (l : List Char) : stripTags (stripTags l) = stripTags l :=
  stripGo_fix (noTagStart_stripTags l)

theorem stripTagsS_idem (s : String) : stripTagsS (stripTagsS s) = stripTagsS s := by
  simp [stripTagsS, stripTags_idem]

theorem zip_map_fuse (cols : List String) (r : List Value)
    (F G : String → Value → Value) :
    (cols.zip ((cols.zip r).map (fun cv => F cv.1 cv.2))).map (fun cv => G cv.1 cv.2)
      = (cols.zip r).map (fun cv => G cv.1 (F cv.1 cv.2)) := by
  induction cols generalizing r with
  | nil => simp
  | cons c cs ih =>
    cases r with
    | nil => simp
    | cons v vs => simp [List.zip_cons_cons, ih]

theorem prepSteps_eq (df : DF) :
    prepSteps df =
      ⟨df.cols, df.rows.map (fun r => (df.cols.zip r).map (fun cv => stepFn cv.1 cv.2))⟩ := by
  unfold prepSteps applyCol
  simp only [List.map_map]
  refine congrArg (DF.mk df.cols) (List.map_congr_left fun r _ => ?_)
  simp only [Function.comp]
  rw [zip_map_fuse df.cols r (fun c v => if dateTimeCol c = true then strV v else v)
      (fun c v => if True then fillV v else v)]
  rw [zip_map_fuse df.cols r
      (fun c v => if True then fillV (if dateTimeCol c = true then strV v else v)
        else (if dateTimeCol c = true then strV v else v))
      (fun c v => if noteCol c = true then stripV v else v)]
  refine List.map_congr_left fun cv _ => ?_
  simp [stepFn]

theorem pyStr_str (s : String) : pyStr (Value.str s) = s := rfl

theorem fillV_str (s : String) : fillV (Value.str s) = Value.str s := rfl

theorem fillV_idem (v : Value) : fillV (fillV v) = fillV v := by
  cases v <;> rfl

theorem stepFn_idem (c : String) (v : Value) : stepFn c (stepFn c v) = stepFn c v := by
  by_cases hn : noteCol c <;> by_cases hd : dateTimeCol c <;>
    simp only [stepFn, hn, hd, if_true, if_false, Bool.false_eq_true] <;>
    cases v <;>
    simp [stripV, strV, fillV, pyStr, stripTagsS, stripTags_idem]

theorem prepSteps_idem (df : DF) : prepSteps (prepSteps df) = prepSteps df := by
  rw [prepSteps_eq df, prepSteps_eq]
  simp only [List.map_map]
  refine congrArg (DF.mk df.cols) (List.map_congr_left fun r _ => ?_)
  simp only [Function.comp]
  rw [zip_map_fuse]
  exact List.map_congr_left fun cv _ => stepFn_idem cv.1 cv.2

theorem zip_getElem? {α β : Type} {as : List α} {bs : List β} {i : Nat} {a : α} {b : β}
    (ha : as[i]? = some a) (hb : bs[i]? = some b) : (as.zip bs)[i]? = some (a, b) := by
  induction as generalizing bs i with
  | nil => simp at ha
  | cons x xs ih =>
    cases bs with
    | nil => simp at hb
    | cons y ys =>
      cases i with
      | zero =>
        simp at ha hb
        simp [List.zip_cons_cons, ha, hb]
      | succ n =>
        simp at ha hb
        simpa [List.zip_cons_cons] using ih ha hb

theorem prep_cell {df : DF} {i j : Nat} {r : List Value} {c : String} {v : Value}
    (hr : df.rows[i]? = some r) (hc : df.cols[j]? = some c) (hv : r[j]? = some v) :
    ∃ r2, (prepSteps df).rows[i]? = some r2 ∧ r2[j]? = some (stepFn c v) := by
  rw [prepSteps_eq]
  refine ⟨(df.cols.zip r).map (fun cv => stepFn cv.1 cv.2), ?_, ?_⟩
  · simp [List.getElem?_map, hr]
  · simp [List.getElem?_map, zip_getElem? hc hv]

theorem prepare_data_false (df : DF) : prepare_data df false = Except.ok (prepSteps df) := by
  simp [prepare_data]

theorem mapME_ok_mem {α β : Type} {f : α → Except String β} {l : List α} {b : List β}
    (h : mapME f l = Except.ok b) : ∀ x ∈ l, ∃ y, f x = Except.ok y := by
  induction l generalizing b with
  | nil => simp
  | cons a t ih =>
    intro x hx
    simp only [mapME] at h
    cases hfa : f a with
    | error e => rw [hfa] at h; simp at h
    | ok y =>
      rw [hfa] at h
      cases hmt : mapME f t with
      | error e => rw [hmt] at h; simp at h
      | ok ys =>
        rw [hmt] at h
        rcases List.mem_cons.mp hx with rfl | hx
        · exact ⟨y, hfa⟩
        · exact ih hmt x hx

theorem stepFn_null (c : String) :
    stepFn c Value.null = if dateTimeCol c then Value.str "nan" else Value.str "" := by
  by_cases hn : noteCol c <;> by_cases hd : dateTimeCol c <;>
    simp [stepFn, hn, hd, strV, fillV, stripV, pyStr] <;> decide

theorem stepFn_datetime {c : String} (hd : dateTimeCol c = true) (hn : noteCol c = false)
    (v : Value) : stepFn c v = Value.str (pyStr v) := by
  simp [stepFn, hd, hn, strV, fillV]

theorem stepFn_note {c : String} (hn : noteCol c = true) (v : Value) :
    ∃ s, stepFn c v = Value.str s ∧ noTagStart s.data :=
  ⟨stripTagsS (pyStr (fillV (if dateTimeCol c then strV v else v))),
   by simp [stepFn, hn, stripV],
   noTagStart_stripTags _⟩

/-- C9: normalization (the non-spatial steps of `prepare_data`: date/time
stringification, null filling, markup stripping) is idempotent — applying
`prepare_data` to an already-normalized frame changes nothing. -/
theorem c9_normalize_idempotent (df d : DF) (h : prepare_data df false = Except.ok d) :
    prepare_data d false = Except.ok d := by
  rw [prepare_data_false, Except.ok.injEq] at h
  subst h
  rw [prepare_data_false, prepSteps_idem]

/-- Witness for C9 at a concrete frame with a null and a markup note. -/
theorem c9_witness :
    prepare_data ⟨["notes", "d"], [[Value.str "x", Value.str ""]]⟩ false
      = Except.ok ⟨["notes", "d"], [[Value.str "x", Value.str ""]]⟩ :=
  c9_normalize_idempotent ⟨["notes", "d"], [[Value.str "<i>x</i>", Value.null]]⟩ _ rfl

/-- C3 counterexample: a null in a column named `startdate` is stringified to
`"nan"` by `astype(str)` before `fillna('')` runs, so it is not replaced by
the empty-string sentinel. -/
theorem c3_cx :
    prepare_data ⟨["startdate"], [[Value.null]]⟩ false
      = Except.ok ⟨["startdate"], [[Value.str "nan"]]⟩
    ∧ Value.str "nan" ≠ Value.str "" :=
  ⟨rfl, by decide⟩

/-- C3 (amended): after `prepare_data`, a null in a column whose name does not
contain `date`/`time` becomes `''`, but a null in a date/time-named column
becomes the textual null rendering `"nan"`. -/
theorem c3_null_fill {df : DF} {i j : Nat} {r : List Value} {c : String} {d : DF}
    (hr : df.rows[i]? = some r) (hc : df.cols[j]? = some c) (hv : r[j]? = some Value.null)
    (hd : prepare_data df false = Except.ok d) :
    ∃ r2, d.rows[i]? = some r2 ∧
      r2[j]? = some (if dateTimeCol c then Value.str "nan" else Value.str "") := by
  rw [prepare_data_false, Except.ok.injEq] at hd
  subst hd
  obtain ⟨r2, h1, h2⟩ := prep_cell hr hc hv
  exact ⟨r2, h1, by rw [h2, stepFn_null]⟩

/-- Witness for C3 at a concrete two-column frame. -/
theorem c3_witness :
    ∃ r2, (prepSteps ⟨["b", "startdate"], [[Value.null, Value.null]]⟩).rows[0]? = some r2 ∧
      r2[1]? = some (if dateTimeCol "startdate" then Value.str "nan" else Value.str "") :=
  @c3_null_fill ⟨["b", "startdate"], [[Value.null, Value.null]]⟩ 0 1
    [Value.null, Value.null] "startdate" _ rfl rfl rfl (prepare_data_false _)

/-- C7 counterexample: column detection is case-sensitive — a column named
`Timestamp` is not stringified and a column named `Notes` is not stripped. -/
theorem c7_cx :
    prepare_data ⟨["Timestamp", "Notes"], [[Value.num 5, Value.str "<b>hi</b>"]]⟩ false
      = Except.ok ⟨["Timestamp", "Notes"], [[Value.num 5, Value.str "<b>hi</b>"]]⟩
    ∧ Value.num 5 ≠ Value.str (pyStr (Value.num 5))
    ∧ Value.str "<b>hi</b>" ≠ Value.str (stripTagsS (pyStr (Value.str "<b>hi</b>"))) :=
  ⟨rfl, by decide, by decide⟩

/-- C7 (amended): detection is case-sensitive substring matching — a column
whose name contains lowercase `date` or `time` (and not `note`) has its values
coerced to their textual representation, and a column whose name contains
lowercase `note` ends up a string with every `<`…`>` span removed. -/
theorem c7_case_sensitive {df : DF} {i j : Nat} {r : List Value} {c : String} {v : Value}
    {d : DF}
    (hr : df.rows[i]? = some r) (hc : df.cols[j]? = some c) (hv : r[j]? = some v)
    (hd : prepare_data df false = Except.ok d) :
    (dateTimeCol c = true → noteCol c = false →
      ∃ r2, d.rows[i]? = some r2 ∧ r2[j]? = some (Value.str (pyStr v)))
    ∧ (noteCol c = true →
      ∃ r2 s, d.rows[i]? = some r2 ∧ r2[j]? = some (Value.str s) ∧ noTagStart s.data) := by
  rw [prepare_data_false, Except.ok.injEq] at hd
  subst hd
  obtain ⟨r2, h1, h2⟩ := prep_cell hr hc hv
  constructor
  · intro hdc hnc
    exact ⟨r2, h1, by rw [h2, stepFn_datetime hdc hnc]⟩
  · intro hnc
    obtain ⟨s, hs, hgood⟩ := stepFn_note hnc v
    exact ⟨r2, s, h1, by rw [h2, hs], hgood⟩

/-- Witness for C7 at a concrete lowercase note column. -/
theorem c7_witness :
    ∃ r2 s, (⟨["notes"], [[Value.str "Hello world"]]⟩ : DF).rows[0]? = some r2 ∧
      r2[0]? = some (Value.str s) ∧ noTagStart s.data :=
  (@c7_case_sensitive ⟨["notes"], [[Value.str "<b>Hello</b> world"]]⟩ 0 0
    [Value.str "<b>Hello</b> world"] "notes" (Value.str "<b>Hello</b> world") _
    rfl rfl rfl rfl).2 (by decide)

/-- C4 counterexample: normalizing a spatial frame containing a record with a
null geometry raises (`''['x']` after null filling is a `TypeError`) instead
of producing an empty encoded value. -/
theorem c4_cx :
    prepare_data ⟨["id", "geometry"], [[Value.num 1, Value.null]]⟩ true
      = Except.error "TypeError" := rfl

/-- C4 (amended): for every spatial frame, a record whose geometry attribute
is null makes `prepare_data` raise an error (the reference aborts) rather than
yield an empty encoded geometry. -/
theorem c4_null_geometry_raises {df : DF} {i j : Nat} {r : List Value}
    (hr : df.rows[i]? = some r) (hc : df.cols[j]? = some "geometry")
    (hv : r[j]? = some Value.null) :
    ∃ e, prepare_data df true = Except.error e := by
  obtain ⟨r2, h1, h2⟩ := prep_cell hr hc hv
  have hstep : stepFn "geometry" Value.null = Value.str "" := by decide
  rw [hstep] at h2
  have hcols : (prepSteps df).cols = df.cols := by rw [prepSteps_eq]
  have hpz : ((prepSteps df).cols.zip r2)[j]? = some ("geometry", Value.str "") := by
    rw [hcols]; exact zip_getElem? hc h2
  have hmem : "geometry" ∈ (prepSteps df).cols := by
    rw [hcols]; exact List.getElem?_mem hc
  cases hm : mapME (convRow (prepSteps df).cols) (prepSteps df).rows with
  | error e =>
    refine ⟨e, ?_⟩
    simp only [prepare_data]
    rw [if_pos (And.intro trivial hmem), hm]
  | ok rows2 =>
    exfalso
    have hrow : r2 ∈ (prepSteps df).rows := List.getElem?_mem h1
    obtain ⟨y, hy⟩ := mapME_ok_mem hm r2 hrow
    have hpair : ("geometry", Value.str "") ∈ (prepSteps df).cols.zip r2 :=
      List.getElem?_mem hpz
    obtain ⟨z, hz⟩ := mapME_ok_mem hy ("geometry", Value.str "") hpair
    simp [convert_geometry] at hz

/-- Witness for C4 at a concrete spatial frame. -/
theorem c4_witness :
    ∃ e, prepare_data ⟨["g1", "geometry"], [[Value.num 2, Value.null]]⟩ true
      = Except.error e :=
  @c4_null_geometry_raises ⟨["g1", "geometry"], [[Value.num 2, Value.null]]⟩ 0 1
    [Value.num 2, Value.null] rfl rfl rfl

/-- C1: `sync_data` joins the two fetched frames directly — the delivered
record set still contains a raw null that `prepare_data` would have replaced
with the empty-string sentinel, so neither fetched collection passed through
the Schema Normalizer before the Differ ran. -/
theorem c1_no_normalization_before_diff :
    sync_records_to_add dbC1 agoC1 ["id"]
      = Except.ok ⟨["id", "notes"], [[Value.num 1, Value.null]]⟩
    ∧ prepare_data dbC1 false = Except.ok ⟨["id", "notes"], [[Value.num 1, Value.str ""]]⟩
    ∧ Value.null ≠ Value.str "" :=
  ⟨rfl, rfl, by decide⟩

theorem chunksGo_flatten {α : Type} : ∀ (fuel : Nat) (l : List α),
    (chunksGo fuel l).flatten = l := by
  intro fuel
  induction fuel with
  | zero => intro l; cases l <;> simp [chunksGo]
  | succ f ih =>
    intro l
    cases l with
    | nil => simp [chunksGo]
    | cons a t =>
      simp only [chunksGo, List.flatten_cons, ih]
      exact List.take_append_drop 100 (a :: t)

theorem chunksGo_length {α : Type} : ∀ (fuel : Nat) (l : List α),
    l.length ≤ fuel → (chunksGo fuel l).length = (l.length + 99) / 100 := by
  intro fuel
  induction fuel with
  | zero =>
    intro l h
    have : l = [] := List.eq_nil_of_length_eq_zero (Nat.le_zero.mp h)
    subst this
    simp [chunksGo]
  | succ f ih =>
    intro l h
    cases l with
    | nil => simp [chunksGo]
    | cons a t =>
      have hlen : (a :: t).length ≤ f + 1 := h
      have hdrop : ((a :: t).drop 100).length ≤ f := by
        simp only [List.length_drop]
        simp at hlen
        omega
      simp only [chunksGo, List.length_cons, ih _ hdrop, List.length_drop]
      omega

theorem chunksGo_get {α : Type} : ∀ (fuel : Nat) (l : List α) (i : Nat),
    l.length ≤ fuel → i < l.length →
    ∃ ch, (chunksGo fuel l)[i / 100]? = some ch ∧ ch[i % 100]? = l[i]? := by
  intro fuel
  induction fuel with
  | zero =>
    intro l i h hi
    have : l = [] := List.eq_nil_of_length_eq_zero (Nat.le_zero.mp h)
    subst this
    simp at hi
  | succ f ih =>
    intro l i h hi
    cases l with
    | nil => simp at hi
    | cons a t =>
      by_cases h100 : i < 100
      · refine ⟨(a :: t).take 100, ?_, ?_⟩
        · have : i / 100 = 0 := Nat.div_eq_of_lt h100
          simp [chunksGo, this]
        · have : i % 100 = i := Nat.mod_eq_of_lt h100
          rw [this, List.getElem?_take, if_pos h100]
      · have hge : 100 ≤ i := Nat.le_of_not_lt h100
        have hdl : ((a :: t).drop 100).length ≤ f := by
          simp only [List.length_drop, List.length_cons]
          simp only [List.length_cons] at h
          omega
        have hdi : i - 100 < ((a :: t).drop 100).length := by
          simp only [List.length_drop, List.length_cons]
          simp only [List.length_cons] at hi
          omega
        obtain ⟨ch, hc1, hc2⟩ := ih ((a :: t).drop 100) (i - 100) hdl hdi
        refine ⟨ch, ?_, ?_⟩
        · have hdiv : i / 100 = (i - 100) / 100 + 1 := by omega
          rw [hdiv]
          simpa [chunksGo] using hc1
        · have hmod : i % 100 = (i - 100) % 100 := by omega
          rw [hmod, hc2, List.getElem?_drop]
          congr 1
          omega

/-- C6: the Batch Deliverer's partition (`chunk_size = 100`): concatenating
the chunks restores the delivery set (every record in exactly one chunk, order
preserved), the number of chunks is `ceil(N / 100)`, and record `i` sits at
offset `i % 100` of chunk `i / 100`. -/
theorem c6_chunking {α : Type} (l : List α) :
    (chunks100 l).flatten = l
    ∧ (chunks100 l).length = (l.length + 99) / 100
    ∧ ∀ i : Nat, i < l.length →
        ∃ ch, (chunks100 l)[i / 100]? = some ch ∧ ch[i % 100]? = l[i]? :=
  ⟨chunksGo_flatten l.length l, chunksGo_length l.length l (Nat.le_refl _),
   fun i hi => chunksGo_get l.length l i (Nat.le_refl _) hi⟩

/-- Witness for C6: record 150 of a 201-record delivery set lands in chunk 1
at offset 50. -/
theorem c6_witness :
    ∃ ch, (chunks100 (List.range 201))[150 / 100]? = some ch ∧
      ch[150 % 100]? = (List.range 201)[150]? :=
  (c6_chunking (List.range 201)).2.2 150 (by simp)

/-- C5 counterexample: two delivery sets that differ in their first chunk but
agree on the last produce different per-chunk result sequences yet the same
return value — so `add_to_ago` does not return the sequence of per-chunk
results, only the last one. -/
theorem c5_cx :
    add_return dfA idf = add_return dfB idf
    ∧ add_results dfA idf ≠ add_results dfB idf :=
  ⟨rfl, by decide⟩

/-- C5 (amended): `add_to_ago` submits every chunk regardless of earlier
responses and accumulates one response per chunk in `results` (`ceil(N/100)`
of them, the i-th being the response to chunk i), but its return value is only
the final chunk's response. -/
theorem c5_returns_last_only {α : Type} (df : DF) (f : List (List (String × Value)) → α)
    (h : df.rows ≠ []) :
    (add_results df f).length = (df.rows.length + 99) / 100
    ∧ (∀ i : Nat, (add_results df f)[i]? = ((chunks100 (features_to_add df))[i]?).map f)
    ∧ ∃ res, (add_results df f).getLast? = some res ∧ add_return df f = Except.ok res := by
  have hflen : (features_to_add df).length = df.rows.length := by
    simp [features_to_add]
  refine ⟨?_, ?_, ?_⟩
  · simp only [add_results, List.length_map, chunks100]
    rw [chunksGo_length _ _ (Nat.le_refl _), hflen]
  · intro i
    simp [add_results, List.getElem?_map]
  · cases hlast : (add_results df f).getLast? with
    | none =>
      exfalso
      have hnil := List.getLast?_eq_none_iff.mp hlast
      have : (add_results df f).length = 0 := by rw [hnil]; rfl
      rw [add_results, List.length_map, chunks100,
        chunksGo_length _ _ (Nat.le_refl _), hflen] at this
      have hpos : 0 < df.rows.length := List.length_pos.mpr h
      omega
    | some res =>
      exact ⟨res, rfl, by simp [add_return, hlast]⟩

/-- Witness for C5 at a concrete 101-record delivery set. -/
theorem c5_witness :
    (add_results dfA idf).length = (dfA.rows.length + 99) / 100
    ∧ ∃ res, (add_results dfA idf).getLast? = some res
        ∧ add_return dfA idf = Except.ok res :=
  ⟨(c5_returns_last_only dfA idf (by decide)).1,
   (c5_returns_last_only dfA idf (by decide)).2.2⟩

theorem lookup_append_of_ne {cs cs2 : List String} {vs vs2 : List Value} {k : String}
    (hne : ∀ x ∈ cs, x ≠ k) (hlen : cs.length = vs.length) :
    lookupVal (cs ++ cs2) (vs ++ vs2) k = lookupVal cs2 vs2 k := by
  induction cs generalizing vs with
  | nil =>
    have : vs = [] := List.eq_nil_of_length_eq_zero hlen.symm
    subst this
    simp
  | cons c ct ih =>
    cases vs with
    | nil => simp at hlen
    | cons v vt =>
      have hck : ¬(c = k) := hne c (List.mem_cons_self c ct)
      simp only [List.cons_append, lookupVal, if_neg hck]
      exact ih (fun x hx => hne x (List.mem_cons_of_mem c hx)) (by simpa using hlen)

theorem mk_concat_ne_merge (l : List Char) (a : Char) (ha : a ≠ 'e') :
    String.mk (l ++ [a]) ≠ "_merge" := by
  intro h
  have hd : l ++ [a] = "_merge".data := congrArg String.data h
  have hlast := congrArg List.getLast? hd
  rw [List.getLast?_concat] at hlast
  have h2 : ("_merge".data).getLast? = some 'e' := rfl
  rw [h2] at hlast
  exact ha (Option.some.inj hlast)

theorem addX_ne_merge (c : String) : addX c ≠ "_merge" := by
  have h := mk_concat_ne_merge (c.data ++ ['_']) 'x' (by decide)
  simpa [addX] using h

theorem addY_ne_merge (c : String) : addY c ≠ "_merge" := by
  have h := mk_concat_ne_merge (c.data ++ ['_']) 'y' (by decide)
  simpa [addY] using h

theorem memA_ne_merge (dbCols agoCols keys : List String) (hdb : "_merge" ∉ dbCols) :
    ∀ x ∈ dbCols.map (fun c => if c ∈ keys then c else if c ∈ agoCols then addX c else c),
      x ≠ "_merge" := by
  intro x hx
  obtain ⟨c, hc, rfl⟩ := List.mem_map.mp hx
  have hcm : c ≠ "_merge" := fun h => hdb (h ▸ hc)
  split_ifs with h1 h2
  · exact hcm
  · exact addX_ne_merge c
  · exact hcm

theorem memB_ne_merge (dbCols agoCols keys : List String) (hago : "_merge" ∉ agoCols) :
    ∀ x ∈ (nonKeyCols agoCols keys).map (fun c => if c ∈ dbCols then addY c else c),
      x ≠ "_merge" := by
  intro x hx
  obtain ⟨c, hc, rfl⟩ := List.mem_map.mp hx
  have hca : c ∈ agoCols := (List.mem_filter.mp hc).1
  have hcm : c ≠ "_merge" := fun h => hago (h ▸ hca)
  split_ifs with h1
  · exact addY_ne_merge c
  · exact hcm

theorem lookup_merge_tag {dbCols agoCols keys : List String} {p1 p2 : List Value}
    {tag : Value}
    (h1 : p1.length = dbCols.length) (h2 : p2.length = (nonKeyCols agoCols keys).length)
    (hdb : "_merge" ∉ dbCols) (hago : "_merge" ∉ agoCols) :
    lookupVal (mergedCols dbCols agoCols keys) (p1 ++ p2 ++ [tag]) "_merge" = tag := by
  unfold mergedCols
  rw [List.append_assoc, List.append_assoc]
  rw [lookup_append_of_ne (memA_ne_merge dbCols agoCols keys hdb) (by simp [h1])]
  rw [lookup_append_of_ne (memB_ne_merge dbCols agoCols keys hago) (by simp [h2])]
  simp [lookupVal]

theorem lookup_leftOnlyRow_tag (db ago : DF) (keys : List String) (rL : List Value)
    (hdb : "_merge" ∉ db.cols) (hago : "_merge" ∉ ago.cols) :
    lookupVal (mergedCols db.cols ago.cols keys) (leftOnlyRow db ago keys rL) "_merge"
      = Value.str "left_only" :=
  lookup_merge_tag (by simp [leftOnlyRow]) (by simp [leftOnlyRow]) hdb hago

theorem lookup_bothRow_tag (db ago : DF) (keys : List String) (rL rR : List Value)
    (hdb : "_merge" ∉ db.cols) (hago : "_merge" ∉ ago.cols) :
    lookupVal (mergedCols db.cols ago.cols keys) (bothRow db ago keys rL rR) "_merge"
      = Value.str "both" :=
  lookup_merge_tag (by simp [bothRow]) (by simp [bothRow]) hdb hago

theorem lookup_rightOnlyRow_tag (db ago : DF) (keys : List String) (rR : List Value)
    (hdb : "_merge" ∉ db.cols) (hago : "_merge" ∉ ago.cols) :
    lookupVal (mergedCols db.cols ago.cols keys) (rightOnlyRow db ago keys rR) "_merge"
      = Value.str "right_only" :=
  lookup_merge_tag (by simp [rightOnlyRow]) (by simp [rightOnlyRow]) hdb hago

theorem mergeOuter_ok {db ago : DF} {keys : List String} {m : DF}
    (h : mergeOuter db ago keys = Except.ok m) :
    m = ⟨mergedCols db.cols ago.cols keys, mergeRows db ago keys⟩
    ∧ keys ≠ [] ∧ (∀ k ∈ keys, k ∈ db.cols) ∧ (∀ k ∈ keys, k ∈ ago.cols)
    ∧ "_merge" ∉ db.cols ∧ "_merge" ∉ ago.cols := by
  unfold mergeOuter at h
  split at h
  · next hcond =>
    rw [Except.ok.injEq] at h
    exact ⟨h.symm, hcond.1, hcond.2.1, hcond.2.2.1, hcond.2.2.2.1, hcond.2.2.2.2⟩
  · simp at h

theorem filter_flatMap {α β : Type} (p : β → Bool) (f : α → List β) (l : List α) :
    (l.flatMap f).filter p = l.flatMap (fun a => (f a).filter p) := by
  induction l with
  | nil => simp
  | cons a t ih => simp [List.flatMap_cons, List.filter_append, ih]

theorem flatMap_ite_singleton {α β : Type} (q : α → Bool) (g : α → β) (l : List α) :
    (l.flatMap (fun a => if q a then [g a] else [])) = (l.filter q).map g := by
  induction l with
  | nil => simp
  | cons a t ih =>
    by_cases hq : q a <;> simp [List.flatMap_cons, hq, ih]

/-- C2 (amended): the Differ selects exactly the joined rows marked
`left_only` — the rows built from a db (source) record whose key tuple matches
no ago (destination) record, and whose destination-side columns are all
missing by construction (`leftOnlyRow`).  Rows present only in the destination
(`right_only`) are never selected for delivery. -/
theorem c2_delivery_is_left_only (db ago : DF) (keys : List String) (m : DF)
    (h : mergeOuter db ago keys = Except.ok m) :
    selRows m =
      (db.rows.filter (fun rL =>
        (ago.rows.filter (fun rR =>
          decide (keyTuple keys ago.cols rR = keyTuple keys db.cols rL))).isEmpty)).map
        (leftOnlyRow db ago keys)
    ∧ ∀ r ∈ m.rows, lookupVal m.cols r "_merge" = Value.str "right_only" →
        r ∉ selRows m := by
  obtain ⟨hm, -, -, -, hdb, hago⟩ := mergeOuter_ok h
  subst hm
  constructor
  · show (mergeRows db ago keys).filter _ = _
    unfold mergeRows
    rw [List.filter_append]
    have hright : ((ago.rows.filter (fun rR =>
        db.rows.all (fun rL =>
          decide (keyTuple keys ago.cols rR ≠ keyTuple keys db.cols rL)))).map
          (rightOnlyRow db ago keys)).filter
        (fun r => decide (lookupVal (mergedCols db.cols ago.cols keys) r "_merge"
          = Value.str "left_only")) = [] := by
      rw [List.filter_eq_nil_iff]
      intro r hr
      obtain ⟨rR, _, rfl⟩ := List.mem_map.mp hr
      simp [lookup_rightOnlyRow_tag db ago keys rR hdb hago]
    rw [hright, List.append_nil, filter_flatMap]
    have hsplit : ∀ rL ∈ db.rows,
        ((if (ago.rows.filter (fun rR =>
            decide (keyTuple keys ago.cols rR = keyTuple keys db.cols rL))).isEmpty
          then [leftOnlyRow db ago keys rL]
          else (ago.rows.filter (fun rR =>
            decide (keyTuple keys ago.cols rR = keyTuple keys db.cols rL))).map
              (fun rR => bothRow db ago keys rL rR)).filter
          (fun r => decide (lookupVal (mergedCols db.cols ago.cols keys) r "_merge"
            = Value.str "left_only")))
        = (if (ago.rows.filter (fun rR =>
            decide (keyTuple keys ago.cols rR = keyTuple keys db.cols rL))).isEmpty
          then [leftOnlyRow db ago keys rL] else []) := by
      intro rL _
      by_cases hms : (ago.rows.filter (fun rR =>
          decide (keyTuple keys ago.cols rR = keyTuple keys db.cols rL))).isEmpty
      · rw [if_pos hms, if_pos hms]
        simp [List.filter_cons, lookup_leftOnlyRow_tag db ago keys rL hdb hago]
      · rw [if_neg hms, if_neg hms]
        rw [List.filter_eq_nil_iff]
        intro r hr
        obtain ⟨rR, _, rfl⟩ := List.mem_map.mp hr
        simp [lookup_bothRow_tag db ago keys rL rR hdb hago]
    calc (db.rows.flatMap fun rL => _) = _ := List.flatMap_congr hsplit
      _ = _ := flatMap_ite_singleton _ _ _
  · intro r hr hind
    intro hsel
    have := (List.mem_filter.mp hsel).2
    rw [hind] at this
    simp at this

/-- C2 counterexample: in the code the db (source) frame is the LEFT side of
the join, so a delivered (`left_only`) row has its left-hand values present
and its right-hand (ago/destination) values absent.  Selecting rows whose
left-hand values are entirely absent — the claim's wording — picks the
`right_only` row instead, and differs from the code's selection. -/
theorem c2_cx :
    mergeOuter dbC2 agoC2 ["id"] = Except.ok mC2
    ∧ claimLeftAbsentSel dbC2.cols ["id"] mC2 ≠ selRows mC2 :=
  ⟨rfl, by decide⟩

/-- Witness for C2 at the concrete join `mC2`. -/
theorem c2_witness :
    selRows mC2 =
      (dbC2.rows.filter (fun rL =>
        (agoC2.rows.filter (fun rR =>
          decide (keyTuple ["id"] agoC2.cols rR = keyTuple ["id"] dbC2.cols rL))).isEmpty)).map
        (leftOnlyRow dbC2 agoC2 ["id"]) :=
  (c2_delivery_is_left_only dbC2 agoC2 ["id"] mC2 rfl).1

/-- C8 counterexample: with duplicate key tuples on both sides the run does
not reject or report — the outer join is performed (pairing the duplicates
into four `both` rows) and the pipeline completes normally. -/
theorem c8_cx :
    mergeOuter dbC8 agoC8 ["id"]
      = Except.ok ⟨["id", "a", "b", "_merge"],
          [[Value.num 1, Value.num 10, Value.num 30, Value.str "both"],
           [Value.num 1, Value.num 10, Value.num 40, Value.str "both"],
           [Value.num 1, Value.num 20, Value.num 30, Value.str "both"],
           [Value.num 1, Value.num 20, Value.num 40, Value.str "both"]]⟩
    ∧ sync_records_to_add dbC8 agoC8 ["id"] = Except.ok ⟨["id", "a"], []⟩ :=
  ⟨rfl, rfl⟩

/-- C8 (amended): the run performs no duplicate-key detection: whenever the
key columns are non-empty, present in both frames and `'_merge'` is not a
column name, the join proceeds and succeeds — including on input containing
two records with an identical key tuple. -/
theorem c8_no_duplicate_check (db ago : DF) (keys : List String)
    (h1 : keys ≠ []) (h2 : ∀ k ∈ keys, k ∈ db.cols) (h3 : ∀ k ∈ keys, k ∈ ago.cols)
    (h4 : "_merge" ∉ db.cols) (h5 : "_merge" ∉ ago.cols)
    (hdup : ∃ i j : Nat, i ≠ j ∧ ∃ ri rj, db.rows[i]? = some ri ∧ db.rows[j]? = some rj
      ∧ keyTuple keys db.cols ri = keyTuple keys db.cols rj) :
    ∃ m, mergeOuter db ago keys = Except.ok m :=
  ⟨_, by rw [mergeOuter, if_pos ⟨h1, h2, h3, h4, h5⟩]⟩

/-- Witness for C8 at the duplicate-key frames `dbC8`, `agoC8`. -/
theorem c8_witness : ∃ m, mergeOuter dbC8 agoC8 ["id"] = Except.ok m :=
  c8_no_duplicate_check dbC8 agoC8 ["id"] (by decide) (by decide) (by decide)
    (by decide) (by decide)
    ⟨0, 1, by decide, [Value.num 1, Value.num 10], [Value.num 1, Value.num 20],
      rfl, rfl, rfl⟩

theorem hasSub_y_append (l : List Char) : hasSubL ['_', 'y'] (l ++ ['_', 'y']) = true := by
  induction l with
  | nil => decide
  | cons a t ih => simp [hasSubL, ih]

theorem hasSub_y_addx : ∀ {l : List Char}, hasSubL ['_', 'y'] l = false →
    hasSubL ['_', 'y'] (l ++ ['_', 'x']) = false := by
  intro l
  induction l with
  | nil => intro _; decide
  | cons a t ih =>
    intro h
    simp only [hasSubL, Bool.or_eq_false_iff] at h
    obtain ⟨hsw, hsub⟩ := h
    simp only [List.cons_append, hasSubL, Bool.or_eq_false_iff]
    refine ⟨?_, ih hsub⟩
    by_cases ha : a = '_'
    · subst ha
      cases t with
      | nil => decide
      | cons b t2 =>
        simp only [startsWithL] at hsw ⊢
        simpa using hsw
    · have hb : ('_' == a) = false := by
        simp only [beq_eq_false_iff_ne, ne_eq]
        exact fun h => ha h.symm
      simp only [startsWithL, hb, Bool.false_and]

theorem replaceXL_no_sub : ∀ (l : List Char), hasSubL ['_', 'x'] l = false →
    replaceXL l = l
  | [] => by intro _; rfl
  | [a] => by intro _; rfl
  | a :: b :: t => by
    intro h
    have hsw : startsWithL ['_', 'x'] (a :: b :: t) = false := by
      revert h
      simp only [hasSubL, Bool.or_eq_false_iff]
      intro h
      exact h.1
    have hsub : hasSubL ['_', 'x'] (b :: t) = false := by
      revert h
      simp only [hasSubL, Bool.or_eq_false_iff]
      intro h
      simp [hasSubL, h.2.1, h.2.2]
    have hcond : ¬(a = '_' ∧ b = 'x') := by
      rintro ⟨ha, hb⟩
      subst ha; subst hb
      simp [startsWithL] at hsw
    show replaceXL (a :: b :: t) = a :: b :: t
    rw [replaceXL, if_neg hcond]
    rw [replaceXL_no_sub (b :: t) hsub]
termination_by l => l.length

theorem replaceXL_append : ∀ (l : List Char), hasSubL ['_', 'x'] l = false →
    replaceXL (l ++ ['_', 'x']) = l
  | [] => by intro _; rfl
  | [a] => by
    intro _
    have hcond : ¬(a = '_' ∧ '_' = 'x') := by
      rintro ⟨-, h2⟩
      exact absurd h2 (by decide)
    show replaceXL (a :: '_' :: ['x']) = [a]
    rw [replaceXL, if_neg hcond]
    rfl
  | a :: b :: t => by
    intro h
    have hsw : startsWithL ['_', 'x'] (a :: b :: t) = false := by
      revert h
      simp only [hasSubL, Bool.or_eq_false_iff]
      intro h
      exact h.1
    have hsub : hasSubL ['_', 'x'] (b :: t) = false := by
      revert h
      simp only [hasSubL, Bool.or_eq_false_iff]
      intro h
      simp [hasSubL, h.2.1, h.2.2]
    have hcond : ¬(a = '_' ∧ b = 'x') := by
      rintro ⟨ha, hb⟩
      subst ha; subst hb
      simp [startsWithL] at hsw
    show replaceXL (a :: b :: (t ++ ['_', 'x'])) = a :: b :: t
    rw [replaceXL, if_neg hcond]
    rw [show b :: (t ++ ['_', 'x']) = (b :: t) ++ ['_', 'x'] from rfl]
    rw [replaceXL_append (b :: t) hsub]
termination_by l => l.length

theorem hasSubS_y_addX {c : String} (h : hasSubS "_y" c = false) :
    hasSubS "_y" (addX c) = false :=
  hasSub_y_addx h

theorem hasSubS_y_addY (c : String) : hasSubS "_y" (addY c) = true :=
  hasSub_y_append c.data

theorem replX_addX {c : String} (h : hasSubS "_x" c = false) : replX (addX c) = c := by
  show String.mk (replaceXL (c.data ++ ['_', 'x'])) = c
  rw [replaceXL_append c.data h]

theorem replX_id {c : String} (h : hasSubS "_x" c = false) : replX c = c := by
  show String.mk (replaceXL c.data) = c
  rw [replaceXL_no_sub c.data h]

theorem filter_map_addY (dbCols : List String) : ∀ (l : List String),
    (∀ c ∈ l, hasSubS "_y" c = false) →
    ((l.map (fun c => if c ∈ dbCols then addY c else c)).filter
        (fun c => !(hasSubS "_y" c)))
      = l.filter (fun c => decide (c ∉ dbCols)) := by
  intro l
  induction l with
  | nil => intro _; simp
  | cons c t ih =>
    intro h
    have hc := h c (List.mem_cons_self c t)
    have ht := ih fun x hx => h x (List.mem_cons_of_mem c hx)
    by_cases hmem : c ∈ dbCols
    · simp only [List.map_cons, if_pos hmem, List.filter_cons, hasSubS_y_addY]
      simp [ht, hmem]
    · simp only [List.map_cons, if_neg hmem, List.filter_cons, hc]
      simp [ht, hmem]

theorem cleanup_cols_eq (db ago : DF) (keys : List String)
    (hdb : ∀ c ∈ db.cols, hasSubS "_x" c = false ∧ hasSubS "_y" c = false)
    (hago : ∀ c ∈ ago.cols, hasSubS "_x" c = false ∧ hasSubS "_y" c = false)
    (h6 : "_merge" ∉ db.cols) (h7 : "_merge" ∉ ago.cols) :
    (((mergedCols db.cols ago.cols keys).filter (fun c => !(c == "_merge"))).filter
        (fun c => !(hasSubS "_y" c))).map replX
      = db.cols ++ (nonKeyCols ago.cols keys).filter (fun c => decide (c ∉ db.cols)) := by
  have hA1 : (db.cols.map (fun c =>
      if c ∈ keys then c else if c ∈ ago.cols then addX c else c)).filter
        (fun c => !(c == "_merge"))
      = db.cols.map (fun c =>
          if c ∈ keys then c else if c ∈ ago.cols then addX c else c) :=
    List.filter_eq_self.mpr (fun x hx => by
      simp [memA_ne_merge db.cols ago.cols keys h6 x hx])
  have hB1 : ((nonKeyCols ago.cols keys).map (fun c =>
      if c ∈ db.cols then addY c else c)).filter (fun c => !(c == "_merge"))
      = (nonKeyCols ago.cols keys).map (fun c => if c ∈ db.cols then addY c else c) :=
    List.filter_eq_self.mpr (fun x hx => by
      simp [memB_ne_merge db.cols ago.cols keys h7 x hx])
  have hM1 : (["_merge"].filter (fun c => !(c == "_merge"))) = ([] : List String) := by
    simp
  have h1 : ((db.cols.map (fun c =>
        if c ∈ keys then c else if c ∈ ago.cols then addX c else c)
      ++ (nonKeyCols ago.cols keys).map (fun c => if c ∈ db.cols then addY c else c))
      ++ ["_merge"]).filter (fun c => !(c == "_merge"))
      = db.cols.map (fun c =>
          if c ∈ keys then c else if c ∈ ago.cols then addX c else c)
      ++ (nonKeyCols ago.cols keys).map (fun c => if c ∈ db.cols then addY c else c) := by
    rw [List.filter_append, List.filter_append, hA1, hB1, hM1, List.append_nil]
  have hA2 : (db.cols.map (fun c =>
      if c ∈ keys then c else if c ∈ ago.cols then addX c else c)).filter
        (fun c => !(hasSubS "_y" c))
      = db.cols.map (fun c =>
          if c ∈ keys then c else if c ∈ ago.cols then addX c else c) :=
    List.filter_eq_self.mpr (fun x hx => by
      obtain ⟨c, hcmem, rfl⟩ := List.mem_map.mp hx
      have hy := (hdb c hcmem).2
      split_ifs with hk hg
      · simp [hy]
      · simp [hasSubS_y_addX hy]
      · simp [hy])
  have hB2 := filter_map_addY db.cols (nonKeyCols ago.cols keys)
      (fun c hc => (hago c (List.mem_filter.mp hc).1).2)
  have h2 : (db.cols.map (fun c =>
        if c ∈ keys then c else if c ∈ ago.cols then addX c else c)
      ++ (nonKeyCols ago.cols keys).map
          (fun c => if c ∈ db.cols then addY c else c)).filter
        (fun c => !(hasSubS "_y" c))
      = db.cols.map (fun c =>
          if c ∈ keys then c else if c ∈ ago.cols then addX c else c)
      ++ (nonKeyCols ago.cols keys).filter (fun c => decide (c ∉ db.cols)) := by
    rw [List.filter_append, hA2, hB2]
  have hA3 : (db.cols.map (fun c =>
      if c ∈ keys then c else if c ∈ ago.cols then addX c else c)).map replX
      = db.cols := by
    rw [List.map_map]
    rw [List.map_congr_left (g := fun c => c) ?hpt, List.map_id']
    case hpt =>
      intro c hcmem
      have hx := (hdb c hcmem).1
      simp only [Function.comp]
      split_ifs with hk hg
      · exact replX_id hx
      · exact replX_addX hx
      · exact replX_id hx
  have hB3 : ((nonKeyCols ago.cols keys).filter
      (fun c => decide (c ∉ db.cols))).map replX
      = (nonKeyCols ago.cols keys).filter (fun c => decide (c ∉ db.cols)) := by
    rw [List.map_congr_left (g := fun c => c) ?hpt2, List.map_id']
    case hpt2 =>
      intro c hcmem
      exact replX_id (hago c (List.mem_filter.mp (List.mem_filter.mp hcmem).1).1).1
  unfold mergedCols
  rw [h1, h2, List.map_append, hA3, hB3]

theorem sync_eq_project (db ago : DF) (keys : List String) (m : DF)
    (h : mergeOuter db ago keys = Except.ok m) :
    sync_records_to_add db ago keys
      = projectCols (renameXDF (dropColsDF (fun c => !(hasSubS "_y" c))
          (dropColsDF (fun c => !(c == "_merge")) ⟨m.cols, selRows m⟩))) db.cols := by
  unfold sync_records_to_add
  rw [h]
  rfl

theorem projectCols_ok {df : DF} {ts : List String} (h : ∀ t ∈ ts, t ∈ df.cols) :
    projectCols df ts
      = Except.ok ⟨ts, df.rows.map (fun r => ts.map (lookupVal df.cols r))⟩ := by
  unfold projectCols
  rw [if_pos h]

/-- C10: the Differ's cleanup treats the substrings `'_x'`/`'_y'` anywhere in
a column name as join-disambiguation markers.  (a) When no input column name
contains `'_x'` or `'_y'`, the cleanup drops exactly the indicator and the
right-hand duplicate columns and restores the left-hand bare names — the
remaining columns are the db columns followed by the ago-only non-key columns
— and the final projection onto the db column set succeeds.  (b) A non-key db
column `tax_year` is swept up by the `'_y'` filter, so the projection fails
with `KeyError`.  (c) A non-key db column `pos_x` is renamed to `pos`, so the
projection fails with `KeyError`. -/
theorem c10_suffix_markers :
    (∀ db ago : DF, ∀ keys : List String,
      (∀ c ∈ db.cols, hasSubS "_x" c = false ∧ hasSubS "_y" c = false) →
      (∀ c ∈ ago.cols, hasSubS "_x" c = false ∧ hasSubS "_y" c = false) →
      keys ≠ [] → (∀ k ∈ keys, k ∈ db.cols) → (∀ k ∈ keys, k ∈ ago.cols) →
      "_merge" ∉ db.cols → "_merge" ∉ ago.cols →
      (((mergedCols db.cols ago.cols keys).filter (fun c => !(c == "_merge"))).filter
          (fun c => !(hasSubS "_y" c))).map replX
        = db.cols ++ (nonKeyCols ago.cols keys).filter (fun c => decide (c ∉ db.cols))
      ∧ ∃ out, sync_records_to_add db ago keys = Except.ok out ∧ out.cols = db.cols)
    ∧ sync_records_to_add ⟨["id", "tax_year"], [[Value.num 1, Value.num 2020]]⟩
        ⟨["id"], []⟩ ["id"] = Except.error "KeyError"
    ∧ sync_records_to_add ⟨["id", "pos_x"], [[Value.num 1, Value.num 3]]⟩
        ⟨["id"], []⟩ ["id"] = Except.error "KeyError" := by
  refine ⟨?_, rfl, rfl⟩
  intro db ago keys hdb hago hk1 hk2 hk3 h6 h7
  have hclean := cleanup_cols_eq db ago keys hdb hago h6 h7
  refine ⟨hclean, ?_⟩
  have hmerge : mergeOuter db ago keys
      = Except.ok ⟨mergedCols db.cols ago.cols keys, mergeRows db ago keys⟩ := by
    unfold mergeOuter
    rw [if_pos ⟨hk1, hk2, hk3, h6, h7⟩]
  rw [sync_eq_project db ago keys _ hmerge]
  have hDcols : (renameXDF (dropColsDF (fun c => !(hasSubS "_y" c))
      (dropColsDF (fun c => !(c == "_merge"))
        ⟨(⟨mergedCols db.cols ago.cols keys, mergeRows db ago keys⟩ : DF).cols,
         selRows ⟨mergedCols db.cols ago.cols keys, mergeRows db ago keys⟩⟩))).cols
      = db.cols ++ (nonKeyCols ago.cols keys).filter (fun c => decide (c ∉ db.cols)) :=
    hclean
  rw [projectCols_ok (fun t ht => by
    rw [hDcols]
    exact List.mem_append_left _ ht)]
  exact ⟨_, rfl, rfl⟩

/-- Witness for C10 at concrete suffix-free frames. -/
theorem c10_witness :
    (((mergedCols ["id", "val"] ["id", "other"] ["id"]).filter
        (fun c => !(c == "_merge"))).filter (fun c => !(hasSubS "_y" c))).map replX
      = ["id", "val"] ++ (nonKeyCols ["id", "other"] ["id"]).filter
          (fun c => decide (c ∉ ["id", "val"]))
    ∧ ∃ out, sync_records_to_add ⟨["id", "val"], [[Value.num 1, Value.num 5]]⟩
        ⟨["id", "other"], [[Value.num 2, Value.num 6]]⟩ ["id"] = Except.ok out
        ∧ out.cols = ["id", "val"] :=
  c10_suffix_markers.1 ⟨["id", "val"], [[Value.num 1, Value.num 5]]⟩
    ⟨["id", "other"], [[Value.num 2, Value.num 6]]⟩ ["id"]
    (by decide) (by decide) (by decide) (by decide) (by decide) (by decide) (by decide)

end GenericSync
